import Mathlib

/-!
Verification development for the Markdown test-document parser of the
`scrut` repository (`src/parsers/markdown.rs`).

Lines of a document are modelled as lists of characters (`Line`), and a
document as a list of lines (the Rust code iterates `str::lines`).  The
pure classifiers (`extract_code_block_start`, `extract_header`,
`extract_title`), the heading stack (`HeadingStack`) and the tokenizer
(`MarkdownIterator`) are translated directly from the source.  External
collaborators that live outside `src/` (the YAML configuration parsing and
merge cascade of `crate::config`, and the `LineParser` body accumulator)
are modelled from the specification; their modelling points are marked in
the doc comments.
-/

/-- A single line of document text, as a list of characters. -/
abbrev Line := List Char

/-- The backtick fence character (code point 96). -/
def tickChar : Char := Char.ofNat 96

/-- Opening curly brace character used for inline configuration. -/
def lbraceChar : Char := Char.ofNat 123

/-- Closing curly brace character used for inline configuration. -/
def rbraceChar : Char := Char.ofNat 125

/-- Model of Rust `str::trim_start`: drop leading whitespace. -/
def trimStartL (l : Line) : Line := l.dropWhile Char.isWhitespace

/-- Model of Rust `str::trim_end`: drop trailing whitespace. -/
def trimEndL (l : Line) : Line := (l.reverse.dropWhile Char.isWhitespace).reverse

/-- Model of Rust `str::trim`: drop whitespace at both ends. -/
def trimL (l : Line) : Line := trimEndL (trimStartL l)

/-- A line is blank when trimming leaves nothing (`line.trim().is_empty()`). -/
def blankLine (l : Line) : Bool := (trimL l).isEmpty

/-- Number of leading backtick characters of a line. -/
def leadingTicks (l : Line) : Nat := (l.takeWhile (fun c => c = tickChar)).length

/-- Split a character list at the first opening brace: returns the part
before the brace and the part from the brace on (empty if no brace). -/
def splitAtBrace : Line → Line × Line
  | [] => ([], [])
  | c :: cs =>
    if c = lbraceChar then ([], c :: cs)
    else
      let p := splitAtBrace cs
      (c :: p.1, p.2)

/-- Translation of `extract_code_block_start` (markdown.rs:462-486).
The exact line of three backticks is special-cased; otherwise the scan
requires the first non-backtick character to appear at index at least 2,
and the part from the first brace strictly after the language start is
returned verbatim as inline configuration (language trimmed at the end
only in the brace case, exactly as in the source). -/
def extract_code_block_start (line : Line) : Option (Line × Line × Line) :=
  if line = [tickChar, tickChar, tickChar] then some (line, [], [])
  else
    match line.dropWhile (fun c => c = tickChar) with
    | [] => none
    | c :: cs =>
      if (line.takeWhile (fun c => c = tickChar)).length < 2 then none
      else if (splitAtBrace cs).2 = [] then
        some (line.takeWhile (fun c => c = tickChar), c :: cs, [])
      else
        some (line.takeWhile (fun c => c = tickChar),
              trimEndL (c :: (splitAtBrace cs).1), (splitAtBrace cs).2)

/-- Translation of `extract_header` (markdown.rs:421-431), the match of the
regex `^(#+\s+)(.+)$`: one or more hashes, one or more whitespace
characters, then a non-empty remainder.  Level is the hash count. -/
def extract_header (line : Line) : Option (Line × Line × Nat) :=
  let hashes := line.takeWhile (fun c => c = '#')
  let afterHash := line.dropWhile (fun c => c = '#')
  let ws := afterHash.takeWhile Char.isWhitespace
  let title := afterHash.dropWhile Char.isWhitespace
  if hashes.isEmpty || ws.isEmpty || title.isEmpty then none
  else some (hashes ++ ws, title, hashes.length)

/-- Translation of `extract_title` (markdown.rs:438-447): trim the line,
try the header shape, otherwise accept a line starting with a letter as a
paragraph title of level 0 (the regex `^\p{L}+`; letters are modelled by
`Char.isAlpha`). -/
def extract_title (line : Line) : Option (Line × Line × Nat) :=
  let t := trimL line
  match extract_header t with
  | some h => some h
  | none =>
    if (t.head?.map Char.isAlpha).getD false then some ([], t, 0) else none

/-- Modelled from the spec: the comment recognizer `is_comment` of the
external line parser (spec 6: "a pure predicate over a raw line deciding
whether it is a leading comment").  A line whose first non-blank character
is a hash is a comment, as pinned by the in-repo test that strips the
leading lines `# ignore` and `# me` from a test block. -/
def is_comment (l : Line) : Bool := (trimStartL l).head? = some '#'

/-- Maximum heading level supported (h1 through h6), markdown.rs:74. -/
def MAX_HEADING_LEVEL : Nat := 6

/-- Translation of `HeadingStack` (markdown.rs:77-83): six optional
headings (index 0 = h1 ... index 5 = h6) and a paragraph buffer. -/
structure HeadingStack where
  headings : Fin 6 → Option Line
  paragraph : List Line

/-- The empty heading stack (`HeadingStack::default`). -/
def HeadingStack.default : HeadingStack := ⟨fun _ => none, []⟩

/-- Translation of `HeadingStack::set_heading` (markdown.rs:87-99): levels
outside 1..=6 are ignored; otherwise the heading at `level - 1` is stored,
all deeper headings are cleared, and the paragraph buffer is cleared. -/
def HeadingStack.set_heading (s : HeadingStack) (level : Nat) (title : Line) :
    HeadingStack :=
  if level = 0 ∨ MAX_HEADING_LEVEL < level then s
  else
    { headings := fun i =>
        if i.val = level - 1 then some title
        else if level - 1 + 1 ≤ i.val then none
        else s.headings i,
      paragraph := [] }

/-- Translation of `HeadingStack::add_paragraph` (markdown.rs:102-104). -/
def HeadingStack.add_paragraph (s : HeadingStack) (text : Line) : HeadingStack :=
  { s with paragraph := s.paragraph ++ [text] }

/-- Translation of `HeadingStack::clear_paragraph` (markdown.rs:107-109). -/
def HeadingStack.clear_paragraph (s : HeadingStack) : HeadingStack :=
  { s with paragraph := [] }

/-- Translation of `HeadingStack::clear_after_test` (markdown.rs:112-114). -/
def HeadingStack.clear_after_test (s : HeadingStack) : HeadingStack :=
  { s with paragraph := [] }

/-- Separator-joining of a list of lines (Rust `Vec::join`). -/
def joinSep (sep : Line) : List Line → Line
  | [] => []
  | [x] => x
  | x :: y :: rest => x ++ sep ++ joinSep sep (y :: rest)

/-- The newline separator used for multi-line paragraphs. -/
def newlineL : Line := ['\n']

/-- The headings of a stack in array order (iteration over the six-element
array `self.headings`). -/
def HeadingStack.headingsInOrder (s : HeadingStack) : List (Option Line) :=
  [s.headings 0, s.headings 1, s.headings 2, s.headings 3, s.headings 4,
   s.headings 5]

/-- Translation of `HeadingStack::build_title` (markdown.rs:119-151).
Composite mode joins all stored headings with the separator and appends
the newline-joined paragraph after one more separator, except that with no
stored heading the paragraph is returned alone.  Non-composite mode
returns the newline-joined paragraph when present, else the deepest stored
heading (reverse scan), else the empty string. -/
def HeadingStack.build_title (s : HeadingStack) (use_composite : Bool)
    (separator : Line) : Line :=
  if use_composite then
    let parts := s.headingsInOrder.filterMap id
    if !s.paragraph.isEmpty then
      let paragraph_text := joinSep newlineL s.paragraph
      if parts.isEmpty then paragraph_text
      else joinSep separator parts ++ separator ++ paragraph_text
    else joinSep separator parts
  else
    if !s.paragraph.isEmpty then joinSep newlineL s.paragraph
    else ((s.headingsInOrder.reverse.findSome? id).getD [])

/-- Translation of `MarkdownToken` (markdown.rs:256-297).  Code and config
lines carry their 0-based source line index. -/
inductive MarkdownToken where
  | line (index : Nat) (text : Line)
  | documentConfig (config_lines : List (Nat × Line))
  | testCodeBlock (language : Line) (config_lines : List (Nat × Line))
      (comment_lines : List (Nat × Line)) (code_lines : List (Nat × Line))
  | verbatimCodeBlock (starting_line_number : Nat) (language : Line)
      (lines : List Line)
deriving DecidableEq

/-- Mutable state of `MarkdownIterator` (markdown.rs:300-307): the number
of lines consumed so far and the content-start flag. -/
structure MarkdownIterator where
  line_index : Nat
  content_start : Bool
deriving DecidableEq

/-- Front-matter interior scan (markdown.rs:329-336): consume lines until
the closing delimiter, recording each interior line with its 0-based
index; `i` is the line count already consumed.  Returns `none` when the
document ends before the delimiter (the Rust `?` on the line source). -/
def scanFrontMatter (i : Nat) : List Line →
    Option (List (Nat × Line) × Nat × List Line)
  | [] => none
  | l :: rest =>
    if l = "---".data then some ([], i + 1, rest)
    else
      match scanFrontMatter (i + 1) rest with
      | none => none
      | some (acc, i', rest') => some ((i, l) :: acc, i', rest')

/-- Verbatim-block interior scan (markdown.rs:348-359): consume and record
lines until one starts with the opening backticks; the closing line is
consumed and recorded as well. -/
def scanVerbatim (bt : Line) (i : Nat) : List Line →
    Option (List Line × Nat × List Line)
  | [] => none
  | l :: rest =>
    if bt.isPrefixOf l then some ([l], i + 1, rest)
    else
      match scanVerbatim bt (i + 1) rest with
      | none => none
      | some (acc, i', rest') => some (l :: acc, i', rest')

/-- Leading-comment scan of a test block (markdown.rs:380-387): consume
comment lines, returning them together with the first non-comment line
(already consumed, its index is the returned count minus one). -/
def scanComments (i : Nat) : List Line →
    Option (List (Nat × Line) × Line × Nat × List Line)
  | [] => none
  | l :: rest =>
    if is_comment l then
      match scanComments (i + 1) rest with
      | none => none
      | some (acc, cur, i', rest') => some ((i, l) :: acc, cur, i', rest')
    else some ([], l, i + 1, rest)

/-- Code-line scan of a test block (markdown.rs:390-395): starting from
the current line `cur` (consumed, at index `i - 1`), record lines until
one starts with the opening backticks; the closing line is consumed but
not recorded. -/
def scanCode (bt : Line) (cur : Line) (i : Nat) (lines : List Line) :
    Option (List (Nat × Line) × Nat × List Line) :=
  if bt.isPrefixOf cur then some ([], i, lines)
  else
    match lines with
    | [] => none
    | l :: rest =>
      match scanCode bt l (i + 1) rest with
      | none => none
      | some (acc, i', rest') => some ((i - 1, cur) :: acc, i', rest')

/-- Inline-configuration extraction on a test fence line
(markdown.rs:370-378): the config text must start with an opening brace
and end with a closing brace with a non-empty interior; the interior is
recorded at the fence line's index. -/
def testConfigLines (openerIndex : Nat) (cfg : Line) : List (Nat × Line) :=
  match cfg with
  | [] => []
  | c :: cs =>
    if c = lbraceChar then
      match cs.reverse with
      | [] => []
      | d :: ds =>
        if d = rbraceChar then
          if ds.isEmpty then [] else [(openerIndex, ds.reverse)]
        else []
    else []

/-- Translation of `MarkdownIterator::next` (markdown.rs:323-416): produce
the next token, the updated iterator state, and the unconsumed lines.
`none` means the iterator ends (document exhausted, possibly in the middle
of a block). -/
def MarkdownIterator.next (languages : List Line) (st : MarkdownIterator) :
    List Line → Option (MarkdownToken × MarkdownIterator × List Line)
  | [] => none
  | line :: rest =>
    if st.content_start = false ∧ line = "---".data then
      match scanFrontMatter (st.line_index + 1) rest with
      | none => none
      | some (cfg, i', rest') =>
        some (.documentConfig cfg, ⟨i', st.content_start⟩, rest')
    else
      match extract_code_block_start line with
      | some (backticks, language, config) =>
        if languages.contains language then
          match scanComments (st.line_index + 1) rest with
          | none => none
          | some (comment_lines, cur, i2, rest2) =>
            match scanCode backticks cur i2 rest2 with
            | none => none
            | some (code_lines, i3, rest3) =>
              some (.testCodeBlock language
                      (testConfigLines (st.line_index + 1 - 1) config)
                      comment_lines code_lines, ⟨i3, true⟩, rest3)
        else
          match scanVerbatim backticks (st.line_index + 1) rest with
          | none => none
          | some (ls, i', rest') =>
            some (.verbatimCodeBlock (st.line_index + 1 - 1) language
                    (line :: ls), ⟨i', true⟩, rest')
      | none =>
        some (.line (st.line_index + 1 - 1) line,
              ⟨st.line_index + 1, st.content_start || !(blankLine line)⟩,
              rest)

/-- Fueled token-stream unfolding of the iterator; fuel larger than the
number of remaining lines is always sufficient since every `next` consumes
at least one line. -/
def tokensAux (languages : List Line) : Nat → MarkdownIterator → List Line →
    List MarkdownToken
  | 0, _, _ => []
  | fuel + 1, st, lines =>
    match MarkdownIterator.next languages st lines with
    | none => []
    | some (t, st', rest) => t :: tokensAux languages fuel st' rest

/-- The token stream of a document, from the initial iterator state. -/
def tokens (languages : List Line) (doc : List Line) : List MarkdownToken :=
  tokensAux languages (doc.length + 1) ⟨0, false⟩ doc

/-- The default recognized test-language set (`DEFAULT_MARKDOWN_LANGUAGES`,
markdown.rs:31). -/
def DEFAULT_MARKDOWN_LANGUAGES : List Line := ["scrut".data]

/-- Modelled from the spec: `DocumentConfig` lives in `crate::config`,
outside `src/`.  Only the fields this parser reads are modelled: the
title-composition policy (`use_composite_test_names`), its separator, and
the per-test defaults tier of the override cascade, which is kept abstract
in the type parameter `TCC` (the external `TestCaseConfig`). -/
structure DocumentConfig (TCC : Type) where
  composite_test_names : Bool
  composite_test_name_separator : Line
  defaults : TCC
deriving DecidableEq

/-- Modelled from the spec: `DocumentConfig::default_markdown` with the
given testcase defaults; composite naming is off by default and the
default separator is " > ", as pinned by the in-repo tests. -/
def DocumentConfig.default_markdown {TCC : Type} (d : TCC) : DocumentConfig TCC :=
  ⟨false, " > ".data, d⟩

/-- The final test-case artifact.  Expectation construction is external
(`ExpectationMaker`), so expectations are modelled as the raw
expected-output lines; the merged configuration is the abstract `TCC`. -/
structure TestCase (TCC : Type) where
  title : Line
  shell_expression : Line
  expectations : List Line
  line_number : Nat
  config : Option TCC
deriving DecidableEq

/-- Errors surfaced by the parse call.  The Rust code uses `anyhow` with
the typed `MarkdownParserError::MissingLanguageSpecifier`; the other
variants model the front-matter/inline YAML parse failures, the body
collaborator's failures, and the out-of-bounds indexing panic of
markdown.rs:238 (a Rust panic, modelled as a distinguished outcome). -/
inductive MarkdownParserError where
  | missingLanguageSpecifier (line : Nat)
  | configParseError
  | testConfigParseError
  | bodyStructure
  | noCommand
  | panicIndexOutOfBounds
deriving DecidableEq

/-- Body-accumulation phase of the modelled `LineParser`: before any
command line, inside the initial command/continuation run, or in the
expected-output tail. -/
inductive LPPhase where
  | expectCommand
  | inCommand
  | inOutput
deriving DecidableEq

/-- Modelled from the spec: the `LineParser` body-accumulation collaborator
(spec 6), which is outside `src/`.  It holds the pending title and merged
configuration, the command (with continuations), the expected-output
lines, the 0-based index of the first command line, and the finished test
cases.  Its behavior is pinned by the in-repo tests of markdown.rs: the
command is the initial run of `$ `/`> ` lines (later `$ `/`> ` lines are
expectations), and a finished test case's `line_number` is the 0-based
index of the first command line plus one (`test_markdown_simple` expects 5
for a command at index 4; `test_commands_only_composed_of_initial_elements`
expects 7 for a command at index 6 whose last body line has index 10). -/
structure LPState (TCC : Type) where
  title : Line
  config : Option TCC
  commands : List Line
  outputs : List Line
  command_index : Option Nat
  phase : LPPhase
  testcases : List (TestCase TCC)

/-- The fresh line-parser state (`LineParser::new`). -/
def LPState.new (TCC : Type) : LPState TCC :=
  ⟨[], none, [], [], none, .expectCommand, []⟩

/-- Modelled from the spec: `LineParser::set_testcase_title`. -/
def LPState.set_testcase_title {TCC : Type} (lp : LPState TCC) (t : Line) :
    LPState TCC :=
  { lp with title := t }

/-- Modelled from the spec: `LineParser::set_testcase_config`. -/
def LPState.set_testcase_config {TCC : Type} (lp : LPState TCC) (c : TCC) :
    LPState TCC :=
  { lp with config := some c }

/-- Modelled from the spec: `LineParser::add_testcase_body` classifies a
body line as command, continuation, or expected output; expected output
before any command is a body-structure error. -/
def LPState.add_testcase_body {TCC : Type} (lp : LPState TCC) (line : Line)
    (index : Nat) : Except MarkdownParserError (LPState TCC) :=
  match lp.phase with
  | .expectCommand =>
    if ("$ ".data).isPrefixOf line then
      .ok { lp with commands := [line.drop 2], command_index := some index,
                    phase := .inCommand }
    else .error .bodyStructure
  | .inCommand =>
    if ("> ".data).isPrefixOf line then
      .ok { lp with commands := lp.commands ++ [line.drop 2] }
    else .ok { lp with outputs := lp.outputs ++ [line], phase := .inOutput }
  | .inOutput => .ok { lp with outputs := lp.outputs ++ [line] }

/-- Modelled from the spec: `LineParser::end_testcase` finalizes one test
case (failing when no command line was supplied) and resets the body
accumulation state. -/
def LPState.end_testcase {TCC : Type} (lp : LPState TCC) (_lastIndex : Nat) :
    Except MarkdownParserError (LPState TCC) :=
  match lp.command_index with
  | none => .error .noCommand
  | some ci =>
    .ok { lp with
          commands := [], outputs := [], command_index := none,
          phase := .expectCommand,
          testcases := lp.testcases ++
            [⟨lp.title, joinSep newlineL lp.commands, lp.outputs, ci + 1,
              lp.config⟩] }

/-- Modelled from the spec: the external configuration collaborators of
`crate::config` and `serde_yaml`, abstracted as parameters.
`apply_front_matter` models `serde_yaml::from_str` composed with
`DocumentConfig::with_overrides_from`; `parse_testcase_config` models
`serde_yaml::from_str` on the brace-wrapped inline fragment;
`with_defaults_from` is the defaults-merge of `TestCaseConfig`;
`empty_testcase_config` is `TestCaseConfig::empty`; `markdown_defaults` is
`TestCaseConfig::default_markdown`.  `none` results model parse failures. -/
structure Externals (TCC : Type) where
  apply_front_matter : DocumentConfig TCC → Line → Option (DocumentConfig TCC)
  parse_testcase_config : Line → Option TCC
  with_defaults_from : TCC → TCC → TCC
  empty_testcase_config : TCC
  markdown_defaults : TCC

/-- Newline-joining of numbered lines (`NumberedLines::join_newline`,
markdown.rs:492-499). -/
def join_newline (ls : List (Nat × Line)) : Line :=
  joinSep newlineL (ls.map Prod.snd)

/-- The body-feeding loop of the test-block arm (markdown.rs:235-237):
feed every code line into the line parser, aborting on the first error
(the Rust `?`). -/
def addBodyAll {TCC : Type} :
    LPState TCC → List (Nat × Line) → Except MarkdownParserError (LPState TCC)
  | lp, [] => .ok lp
  | lp, p :: ps =>
    match lp.add_testcase_body p.2 p.1 with
    | .error e => .error e
    | .ok lp' => addBodyAll lp' ps

/-- State threaded through the parse loop of `MarkdownParser::parse`
(markdown.rs:157-251): the line parser, the heading stack, the running
document configuration, and the `has_title_since_break` flag. -/
structure ParseState (TCC : Type) where
  lp : LPState TCC
  heading_stack : HeadingStack
  config : DocumentConfig TCC
  has_title_since_break : Bool

/-- One iteration of the token loop of `MarkdownParser::parse`
(markdown.rs:171-243), translated arm by arm. -/
def parseStep {TCC : Type} (ext : Externals TCC) (base : TCC)
    (st : ParseState TCC) :
    MarkdownToken → Except MarkdownParserError (ParseState TCC)
  | .documentConfig config_lines =>
    match ext.apply_front_matter st.config (join_newline config_lines) with
    | none => .error .configParseError
    | some c => .ok { st with config := c }
  | .line _ line =>
    match extract_title line with
    | some (_, title, level) =>
      let hs :=
        if level > 0 then st.heading_stack.set_heading level title
        else st.heading_stack.add_paragraph title
      let composite_title :=
        hs.build_title st.config.composite_test_names
          st.config.composite_test_name_separator
      .ok { st with heading_stack := hs, has_title_since_break := true,
                    lp := st.lp.set_testcase_title composite_title }
    | none =>
      if st.has_title_since_break then
        .ok { st with heading_stack := st.heading_stack.clear_paragraph,
                      has_title_since_break := false }
      else .ok st
  | .verbatimCodeBlock starting_line_number language _ =>
    if language.isEmpty then
      .error (.missingLanguageSpecifier starting_line_number)
    else .ok st
  | .testCodeBlock _ config_lines _ code_lines =>
    match
      (if config_lines.isEmpty then some ext.empty_testcase_config
       else ext.parse_testcase_config
              (lbraceChar :: join_newline config_lines ++ [rbraceChar])) with
    | none => .error .testConfigParseError
    | some parsed_config =>
      let merged := ext.with_defaults_from
        (ext.with_defaults_from parsed_config st.config.defaults) base
      let lp1 := st.lp.set_testcase_config merged
      match addBodyAll lp1 code_lines with
      | .error e => .error e
      | .ok lp2 =>
        match code_lines.getLast? with
        | none => .error .panicIndexOutOfBounds
        | some last =>
          match lp2.end_testcase last.1 with
          | .error e => .error e
          | .ok lp3 =>
            .ok { st with lp := lp3,
                          heading_stack := st.heading_stack.clear_after_test,
                          has_title_since_break := false }

/-- The token loop of `MarkdownParser::parse` as a fold; any error aborts
the whole parse (Rust `?` / `bail!`). -/
def parseTokens {TCC : Type} (ext : Externals TCC) (base : TCC) :
    ParseState TCC → List MarkdownToken →
    Except MarkdownParserError (ParseState TCC)
  | st, [] => .ok st
  | st, t :: ts =>
    match parseStep ext base st t with
    | .error e => .error e
    | .ok st' => parseTokens ext base st' ts

/-- The initial parse-loop state (markdown.rs:165-169). -/
def initState {TCC : Type} (ext : Externals TCC) : ParseState TCC :=
  ⟨LPState.new TCC, HeadingStack.default,
   DocumentConfig.default_markdown ext.markdown_defaults, false⟩

/-- Translation of `MarkdownParser::parse` (markdown.rs:157-251): drive
the tokenizer and return the document configuration and the finished test
cases, or the first error. -/
def parse {TCC : Type} (ext : Externals TCC) (base : TCC)
    (languages : List Line) (doc : List Line) :
    Except MarkdownParserError (DocumentConfig TCC × List (TestCase TCC)) :=
  match parseTokens ext base (initState ext) (tokens languages doc) with
  | .error e => .error e
  | .ok st => .ok (st.config, st.lp.testcases)

/-- Trivial instantiation of the external configuration collaborators over
the unit configuration type, used to evaluate the parser on concrete
documents whose claims do not depend on configuration contents. -/
def trivialExternals : Externals Unit :=
  ⟨fun c _ => some c, fun _ => some (), fun a _ => a, (), ()⟩

/-- Observable projection of a parse result used by concrete claims:
title, shell expression, and line number of each test case. -/
def parseSummary (doc : List Line) : Option (List (Line × Line × Nat)) :=
  match parse trivialExternals () DEFAULT_MARKDOWN_LANGUAGES doc with
  | .error _ => none
  | .ok (_, tcs) => some (tcs.map (fun tc =>
      (tc.title, tc.shell_expression, tc.line_number)))

/-- The spec's "innermost" scan written level by level: the deepest stored
heading obtained by checking level 6 down to level 1, else empty. -/
def deepestHeadingScan (s : HeadingStack) : Line :=
  match s.headings 5 with
  | some h => h
  | none =>
    match s.headings 4 with
    | some h => h
    | none =>
      match s.headings 3 with
      | some h => h
      | none =>
        match s.headings 2 with
        | some h => h
        | none =>
          match s.headings 1 with
          | some h => h
          | none =>
            match s.headings 0 with
            | some h => h
            | none => []

/-- The claim's innermost formula: the newline-joined paragraph when the
paragraph buffer is non-empty, else the deepest stored heading scanning
from level 6 down to level 1, else the empty string. -/
def innermostTitleClaim (s : HeadingStack) : Line :=
  if s.paragraph.isEmpty then deepestHeadingScan s
  else joinSep newlineL s.paragraph

/-- The claim's composite formula taken literally: every stored heading
(skipped levels omitted) joined with the separator and, whenever the
paragraph buffer is non-empty, the newline-joined paragraph appended
after one more separator. -/
def compositeTitleClaim (s : HeadingStack) (sep : Line) : Line :=
  if s.paragraph.isEmpty then joinSep sep (s.headingsInOrder.filterMap id)
  else joinSep sep (s.headingsInOrder.filterMap id) ++ sep ++
    joinSep newlineL s.paragraph

/-- The amended composite formula: like the claim's, except that when no
heading is stored the paragraph is returned alone, without a leading
separator. -/
def compositeTitleAmended (s : HeadingStack) (sep : Line) : Line :=
  if s.paragraph.isEmpty then joinSep sep (s.headingsInOrder.filterMap id)
  else if (s.headingsInOrder.filterMap id).isEmpty then
    joinSep newlineL s.paragraph
  else joinSep sep (s.headingsInOrder.filterMap id) ++ sep ++
    joinSep newlineL s.paragraph

/-- The claim's end-to-end document: a paragraph line, a blank line, and a
scrut-tagged fenced block containing a command and one output line. -/
def docC8 : List Line :=
  ["This is a title".data, [], "```scrut".data, "$ echo hello".data,
   "hello".data, "```".data]

/-- Recognizer of front-matter tokens. -/
def isFrontMatterToken : MarkdownToken → Bool
  | .documentConfig _ => true
  | _ => false

/-- Recognizer of blank plain-line tokens (lines that do not flip the
content-start flag). -/
def isBlankLineToken : MarkdownToken → Bool
  | .line _ text => blankLine text
  | _ => false

/-- Document with one complete test block followed by an unterminated
four-backtick block. -/
def docC7 : List Line :=
  ["Complete test".data, [], "```scrut".data, "$ echo ok".data, "ok".data,
   "```".data, "````scrut".data, "$ truncated".data]

example : extract_code_block_start ("```scrut".data) =
    some ("```".data, "scrut".data, []) := by decide

example : extract_code_block_start ("```".data) = some ("```".data, [], []) := by
  decide

example : extract_code_block_start ("``x".data) = some ("``".data, "x".data, []) := by
  decide

example : extract_code_block_start ("````".data) = none := by decide

example : extract_code_block_start ("hello".data) = none := by decide

example : extract_title ("### My title ".data) =
    some ("### ".data, "My title".data, 3) := by decide

example : extract_title ("This is a title".data) =
    some ([], "This is a title".data, 0) := by decide

example : extract_title ("".data) = none := by decide

example : is_comment ("# ignore".data) = true := by decide

example : is_comment ("$ echo hello".data) = false := by decide

example : tokens DEFAULT_MARKDOWN_LANGUAGES
    ["This is a title".data, [], "```scrut".data, "$ echo hello".data,
     "hello".data, "```".data] =
    [.line 0 "This is a title".data, .line 1 [],
     .testCodeBlock "scrut".data [] []
       [(3, "$ echo hello".data), (4, "hello".data)]] := by decide

example : tokens DEFAULT_MARKDOWN_LANGUAGES
    ["---".data, "a: b".data, "---".data, "x".data] =
    [.documentConfig [(1, "a: b".data)], .line 3 "x".data] := by decide

example : tokens DEFAULT_MARKDOWN_LANGUAGES
    ["```bash".data, "$ echo hi".data, "```".data] =
    [.verbatimCodeBlock 0 "bash".data
      ["```bash".data, "$ echo hi".data, "```".data]] := by decide

example : tokens DEFAULT_MARKDOWN_LANGUAGES
    ["````scrut".data, "$ echo hello".data, "```".data, "````".data] =
    [.testCodeBlock "scrut".data [] []
      [(1, "$ echo hello".data), (2, "```".data)]] := by decide

example : tokens DEFAULT_MARKDOWN_LANGUAGES
    ["---".data, "a".data, "---".data, "---".data, "b".data, "---".data] =
    [.documentConfig [(1, "a".data)], .documentConfig [(4, "b".data)]] := by
  decide

example : parseSummary
    ["This is a title".data, [], "```scrut".data, "$ echo hello".data,
     "hello".data, "```".data] =
    some [("This is a title".data, "echo hello".data, 4)] := by decide

example : parse trivialExternals () DEFAULT_MARKDOWN_LANGUAGES
    ["```".data, "x".data, "```".data] =
    .error (.missingLanguageSpecifier 0) := by rfl

example : parse trivialExternals () DEFAULT_MARKDOWN_LANGUAGES
    ["```scrut".data, "```".data] =
    .error .panicIndexOutOfBounds := by rfl

/-- Helper joining `takeWhile`/`dropWhile` lengths to the line length. -/
theorem takeWhile_dropWhile_length (p : Char → Bool) (l : Line) :
    (l.takeWhile p).length + (l.dropWhile p).length = l.length := by
  rw [← List.length_append, List.takeWhile_append_dropWhile]

/-- C1, counterexample: the fence classifier accepts the line of two
backticks and a tag (a run shorter than three), and rejects the line of
exactly four backticks (a run of three or more with no tag), so
recognition is not equivalent to "begins with a run of three or more
backticks, optionally followed by a tag and configuration". -/
theorem C1_counterexample :
    (extract_code_block_start ("``x".data) ≠ none ∧
      leadingTicks ("``x".data) < 3) ∧
    (extract_code_block_start ("````".data) = none ∧
      3 ≤ leadingTicks ("````".data)) := by decide

/-- C1, amended: the fence classifier recognizes a line as opening a
fenced block if and only if the line is exactly three backticks, or it
begins with at least two backticks followed by at least one non-backtick
character (the language tag and optional inline configuration). -/
theorem C1_fence_recognition_amended (line : Line) :
    extract_code_block_start line ≠ none ↔
      (line = [tickChar, tickChar, tickChar] ∨
       (2 ≤ leadingTicks line ∧ leadingTicks line < line.length)) := by
  have hlen := takeWhile_dropWhile_length (fun c => c = tickChar) line
  unfold extract_code_block_start leadingTicks
  split
  · rename_i heq
    simp [heq]
  · rename_i hne
    cases hd : line.dropWhile (fun c => c = tickChar) with
    | nil =>
      rw [hd] at hlen
      simp only [hd]
      constructor
      · intro h
        exact absurd rfl h
      · rintro (h | ⟨h1, h2⟩)
        · exact absurd h hne
        · simp at hlen
          omega
    | cons c cs =>
      rw [hd] at hlen
      simp only [hd]
      by_cases h2 : (line.takeWhile (fun c => c = tickChar)).length < 2
      · simp only [if_pos h2]
        constructor
        · intro h
          exact absurd rfl h
        · rintro (h | ⟨ha, hb⟩)
          · exact absurd h hne
          · omega
      · simp only [if_neg h2]
        constructor
        · intro _
          right
          constructor
          · omega
          · simp only [List.length_cons] at hlen
            omega
        · intro _
          split <;> simp

/-- C1, witness for the amended theorem at a concrete accepted line. -/
theorem C1_witness :
    extract_code_block_start ("```scrut".data) ≠ none :=
  (C1_fence_recognition_amended ("```scrut".data)).mpr (by decide)

/-- C5, counterexample: with no stored heading and paragraph "x",
composite mode returns "x", not the claimed separator-prefixed " > x". -/
theorem C5_counterexample :
    HeadingStack.build_title ⟨fun _ => none, ["x".data]⟩ true (" > ".data) ≠
      compositeTitleClaim ⟨fun _ => none, ["x".data]⟩ (" > ".data) ∧
    HeadingStack.build_title ⟨fun _ => none, ["x".data]⟩ true (" > ".data) =
      "x".data ∧
    compositeTitleClaim ⟨fun _ => none, ["x".data]⟩ (" > ".data) =
      " > x".data := by decide

/-- C5, amended: `build_title` is a pure function of the stack state;
non-composite mode returns the newline-joined paragraph if non-empty, else
the deepest stored heading scanning level 6 down to level 1, else the
empty string; composite mode joins every stored heading with the
separator and appends the newline-joined paragraph after one more
separator, except that with no stored heading the paragraph is returned
alone. -/
theorem C5_build_title_amended (s : HeadingStack) (sep : Line) :
    s.build_title false sep = innermostTitleClaim s ∧
    s.build_title true sep = compositeTitleAmended s sep := by
  constructor
  · unfold HeadingStack.build_title innermostTitleClaim deepestHeadingScan
    by_cases hp : s.paragraph.isEmpty
    · simp only [hp, Bool.not_true, if_true, if_false, Bool.false_eq_true]
      unfold HeadingStack.headingsInOrder
      cases h5 : s.headings 5 <;> cases h4 : s.headings 4 <;>
        cases h3 : s.headings 3 <;> cases h2 : s.headings 2 <;>
        cases h1 : s.headings 1 <;> cases h0 : s.headings 0 <;>
        simp [List.findSome?]
    · simp [hp]
  · unfold HeadingStack.build_title compositeTitleAmended
    by_cases hp : s.paragraph.isEmpty
    · simp [hp]
    · by_cases hh : (s.headingsInOrder.filterMap id).isEmpty
      · simp only [hp, hh, Bool.not_false, if_true, if_false]
        simp
      · simp only [hp, hh, Bool.not_false, if_true, if_false]
        simp

/-- C5, witness for the amended theorem at a concrete stack. -/
theorem C5_witness :
    HeadingStack.build_title
        ⟨fun i => if i.val = 0 then some ("A".data) else none, ["p".data]⟩
        true (" > ".data) =
      compositeTitleAmended
        ⟨fun i => if i.val = 0 then some ("A".data) else none, ["p".data]⟩
        (" > ".data) :=
  (C5_build_title_amended
    ⟨fun i => if i.val = 0 then some ("A".data) else none, ["p".data]⟩
    (" > ".data)).2

/-- C6: `set_heading` at a level in 1..=6 stores the text at that level,
clears every deeper stored heading, clears the paragraph buffer, and
leaves shallower headings unchanged; at level 0 or above 6 it is a
no-op returning the state unchanged (and it never fails, being total). -/
theorem C6_set_heading (s : HeadingStack) (L : Nat) (t : Line) :
    (1 ≤ L → L ≤ 6 →
      (∀ i : Fin 6, i.val = L - 1 →
          (s.set_heading L t).headings i = some t) ∧
      (∀ i : Fin 6, i.val < L - 1 →
          (s.set_heading L t).headings i = s.headings i) ∧
      (∀ i : Fin 6, L - 1 < i.val →
          (s.set_heading L t).headings i = none) ∧
      (s.set_heading L t).paragraph = []) ∧
    (L = 0 ∨ 6 < L → s.set_heading L t = s) := by
  unfold HeadingStack.set_heading MAX_HEADING_LEVEL
  constructor
  · intro h1 h6
    rw [if_neg (by omega)]
    refine ⟨?_, ?_, ?_, rfl⟩
    · intro i hi
      simp [hi]
    · intro i hi
      simp only
      rw [if_neg (by omega), if_neg (by omega)]
    · intro i hi
      simp only
      rw [if_neg (by omega), if_pos (by omega)]
  · intro h
    rw [if_pos (by omega)]

/-- C6, witness: setting level 2 on a fully populated stack clears level 3
and keeps level 1. -/
theorem C6_witness :
    ((HeadingStack.set_heading ⟨fun _ => some ("A".data), ["p".data]⟩ 2
        ("B".data)).headings 2 = none ∧
     (HeadingStack.set_heading ⟨fun _ => some ("A".data), ["p".data]⟩ 2
        ("B".data)).headings 1 = some ("B".data) ∧
     (HeadingStack.set_heading ⟨fun _ => some ("A".data), ["p".data]⟩ 2
        ("B".data)).headings 0 = some ("A".data)) ∧
    HeadingStack.set_heading ⟨fun _ => some ("A".data), ["p".data]⟩ 7
        ("B".data) = ⟨fun _ => some ("A".data), ["p".data]⟩ := by
  have h := C6_set_heading ⟨fun _ => some ("A".data), ["p".data]⟩ 2 ("B".data)
  have h7 := C6_set_heading ⟨fun _ => some ("A".data), ["p".data]⟩ 7 ("B".data)
  refine ⟨⟨?_, ?_, ?_⟩, h7.2 (by omega)⟩
  · exact (h.1 (by omega) (by omega)).2.2.1 2 (by decide)
  · exact (h.1 (by omega) (by omega)).1 1 (by decide)
  · exact (h.1 (by omega) (by omega)).2.1 0 (by decide)

/-- C9: processing a verbatim code block with a non-empty language tag
leaves the whole parse state (line parser with its pending title and
test cases, heading stack, document configuration, title flag) exactly
unchanged and raises no error. -/
theorem C9_verbatim_noop {TCC : Type} (ext : Externals TCC) (base : TCC)
    (st : ParseState TCC) (s : Nat) (language : Line) (ls : List Line)
    (h : language ≠ []) :
    parseStep ext base st (.verbatimCodeBlock s language ls) = .ok st := by
  cases language with
  | nil => exact absurd rfl h
  | cons c cs => rfl

/-- C9, witness at a concrete bash-tagged verbatim block. -/
theorem C9_witness :
    parseStep trivialExternals () (initState trivialExternals)
      (.verbatimCodeBlock 0 ("bash".data)
        ["```bash".data, "$ echo hi".data, "```".data]) =
      .ok (initState trivialExternals) :=
  C9_verbatim_noop trivialExternals () (initState trivialExternals) 0
    ("bash".data) ["```bash".data, "$ echo hi".data, "```".data]
    (by decide)

/-- C10: a recognized test fence immediately followed by its closing fence
tokenizes to a test block with zero code lines, and `parse` then evaluates
`code_lines[code_lines.len() - 1]` on the empty vector: the run ends in
the out-of-bounds indexing panic rather than a result, for any behavior of
the external configuration collaborators. -/
theorem C10_empty_test_block_panics :
    tokens DEFAULT_MARKDOWN_LANGUAGES ["```scrut".data, "```".data] =
      [.testCodeBlock ("scrut".data) [] [] []] ∧
    parse trivialExternals () DEFAULT_MARKDOWN_LANGUAGES
        ["```scrut".data, "```".data] = .error .panicIndexOutOfBounds ∧
    (∀ (TCC : Type) (ext : Externals TCC) (base : TCC) (st : ParseState TCC)
        (lang : Line) (comments : List (Nat × Line)),
      parseStep ext base st (.testCodeBlock lang [] comments []) =
        .error .panicIndexOutOfBounds) := by
  refine ⟨by decide, rfl, ?_⟩
  intro TCC ext base st lang comments
  rfl

/-- C8, counterexample: the parse yields one test case with the claimed
title and shell expression, but its line number is 4 — the 0-based index
of the "hello" output line (equivalently the 1-based number of the command
line) — not that index plus one. -/
theorem C8_counterexample :
    parseSummary docC8 =
      some [("This is a title".data, "echo hello".data, 4)] ∧
    parseSummary docC8 ≠
      some [("This is a title".data, "echo hello".data, 5)] := by decide

/-- C8, amended: for any behavior of the external configuration
collaborators, the document parses to exactly one test case titled
"This is a title", with shell expression "echo hello", one expected-output
line "hello", and line number 4, the 0-based index of the "hello" line
(the command line's 1-based number). -/
theorem C8_simple_document_amended {TCC : Type} (ext : Externals TCC)
    (base : TCC) :
    ∃ c tc, parse ext base DEFAULT_MARKDOWN_LANGUAGES docC8 = .ok (c, [tc]) ∧
      tc.title = "This is a title".data ∧
      tc.shell_expression = "echo hello".data ∧
      tc.expectations = ["hello".data] ∧
      tc.line_number = 4 :=
  ⟨_, _, rfl, rfl, rfl, rfl, rfl⟩

/-- Unfolding equation of `scanCode` on the empty remainder. -/
theorem scanCode_nil (bt cur : Line) (i : Nat) :
    scanCode bt cur i [] =
      if bt.isPrefixOf cur then some ([], i, ([] : List Line)) else none := rfl

/-- Unfolding equation of `scanCode` on a non-empty remainder. -/
theorem scanCode_cons (bt cur : Line) (i : Nat) (l : Line) (rest : List Line) :
    scanCode bt cur i (l :: rest) =
      if bt.isPrefixOf cur then some ([], i, l :: rest)
      else
        match scanCode bt l (i + 1) rest with
        | none => none
        | some (acc, i', rest') => some ((i - 1, cur) :: acc, i', rest') := rfl

/-- Leading backtick count of a cons cell. -/
theorem leadingTicks_cons (c : Char) (cs : List Char) :
    leadingTicks (c :: cs) =
      if c = tickChar then leadingTicks cs + 1 else 0 := by
  by_cases hc : c = tickChar <;>
    simp [leadingTicks, List.takeWhile_cons, hc]

/-- A replicated run of backticks is a prefix of a line exactly when the
line starts with at least that many backticks (this is
`line.starts_with(backticks)` for a backtick marker). -/
theorem replicate_isPrefixOf_iff (n : Nat) (l : Line) :
    (List.replicate n tickChar).isPrefixOf l = true ↔ n ≤ leadingTicks l := by
  induction n generalizing l with
  | zero => simp [List.isPrefixOf]
  | succ n ih =>
    cases l with
    | nil =>
      rw [List.replicate_succ]
      show List.isPrefixOf _ [] = true ↔ _
      simp [List.isPrefixOf, leadingTicks]
    | cons c cs =>
      rw [List.replicate_succ, leadingTicks_cons]
      show (tickChar == c && (List.replicate n tickChar).isPrefixOf cs) =
          true ↔ _
      by_cases hc : c = tickChar
      · subst hc
        rw [if_pos rfl]
        simp only [beq_self_eq_true, Bool.true_and, ih]
        omega
      · have hbc : (tickChar == c) = false := by
          simp only [beq_eq_false_iff_ne, ne_eq]
          exact fun e => hc e.symm
        rw [hbc, if_neg hc]
        simp

/-- The fence marker returned by the classifier is always the line's full
leading backtick run, of length at least two. -/
theorem extract_marker_replicate (line bt lang cfg : Line)
    (h : extract_code_block_start line = some (bt, lang, cfg)) :
    bt = List.replicate (leadingTicks line) tickChar ∧
      2 ≤ leadingTicks line := by
  have hrep : ∀ l : Line, l.takeWhile (fun c => c = tickChar) =
      List.replicate (leadingTicks l) tickChar := by
    intro l
    induction l with
    | nil => rfl
    | cons c cs ih =>
      by_cases hc : c = tickChar
      · subst hc
        rw [leadingTicks_cons, if_pos rfl, List.takeWhile_cons,
          if_pos (by simp), List.replicate_succ, ih]
      · rw [leadingTicks_cons, if_neg hc, List.takeWhile_cons]
        simp [hc]
  unfold extract_code_block_start at h
  split at h
  · rename_i heq
    simp only [Option.some_inj, Prod.mk.injEq] at h
    obtain ⟨rfl, -, -⟩ := h
    subst heq
    constructor
    · decide
    · decide
  · rename_i hne
    split at h
    · exact absurd h (by simp)
    · rename_i c cs hd
      split at h
      · exact absurd h (by simp)
      · rename_i h2
        split at h <;>
          · simp only [Option.some_inj, Prod.mk.injEq] at h
            obtain ⟨rfl, -, -⟩ := h
            refine ⟨hrep line, ?_⟩
            unfold leadingTicks
            omega

/-- Characterization of the code-line scan: all recorded lines fail the
closing test, the scan stops at the first closing line, and the remaining
input follows the closer. -/
theorem scanCode_spec (bt : Line) (lines : List Line) :
    ∀ (cur : Line) (i : Nat) (acc : List (Nat × Line)) (i' : Nat)
      (rest : List Line),
      scanCode bt cur i lines = some (acc, i', rest) →
      (∀ p ∈ acc, bt.isPrefixOf p.2 = false) ∧
      ∃ closer, cur :: lines = acc.map Prod.snd ++ closer :: rest ∧
        bt.isPrefixOf closer = true := by
  induction lines with
  | nil =>
    intro cur i acc i' rest h
    rw [scanCode_nil] at h
    split at h
    · rename_i hc
      simp only [Option.some_inj, Prod.mk.injEq] at h
      obtain ⟨rfl, -, rfl⟩ := h
      exact ⟨by simp, cur, rfl, hc⟩
    · exact absurd h (by simp)
  | cons l rest₀ ih =>
    intro cur i acc i' rest h
    rw [scanCode_cons] at h
    split at h
    · rename_i hc
      simp only [Option.some_inj, Prod.mk.injEq] at h
      obtain ⟨rfl, -, rfl⟩ := h
      exact ⟨by simp, cur, rfl, hc⟩
    · rename_i hc
      split at h
      · exact absurd h (by simp)
      · rename_i acc₁ i₁ rest₁ hrec
        simp only [Option.some_inj, Prod.mk.injEq] at h
        obtain ⟨rfl, -, rfl⟩ := h
        obtain ⟨h1, closer, h2, h3⟩ := ih l (i + 1) acc₁ i₁ rest₁ hrec
        refine ⟨?_, closer, ?_, h3⟩
        · intro p hp
          rcases List.mem_cons.mp hp with rfl | hp'
          · exact (Bool.not_eq_true _) ▸ hc
          · exact h1 p hp'
        · simp only [List.map_cons, List.cons_append]
          exact congrArg (cur :: ·) h2

/-- Characterization of the verbatim scan: the recorded lines are a body
of non-closing lines followed by the first closing line, included. -/
theorem scanVerbatim_spec (bt : Line) (lines : List Line) :
    ∀ (i : Nat) (acc : List Line) (i' : Nat) (rest : List Line),
      scanVerbatim bt i lines = some (acc, i', rest) →
      ∃ body closer, acc = body ++ [closer] ∧
        (∀ l ∈ body, bt.isPrefixOf l = false) ∧
        bt.isPrefixOf closer = true ∧ lines = body ++ closer :: rest := by
  induction lines with
  | nil => intro i acc i' rest h; simp [scanVerbatim] at h
  | cons l rest₀ ih =>
    intro i acc i' rest h
    unfold scanVerbatim at h
    split at h
    · rename_i hl
      simp only [Option.some_inj, Prod.mk.injEq] at h
      obtain ⟨rfl, -, rfl⟩ := h
      exact ⟨[], l, rfl, by simp, hl, rfl⟩
    · rename_i hl
      split at h
      · exact absurd h (by simp)
      · rename_i acc₁ i₁ rest₁ hrec
        simp only [Option.some_inj, Prod.mk.injEq] at h
        obtain ⟨rfl, -, rfl⟩ := h
        obtain ⟨body, closer, hacc, hbody, hcl, hlines⟩ :=
          ih (i + 1) acc₁ i₁ rest₁ hrec
        refine ⟨l :: body, closer, by simp [hacc], ?_, hcl, by simp [hlines]⟩
        intro x hx
        rcases List.mem_cons.mp hx with rfl | hx'
        · exact (Bool.not_eq_true _) ▸ hl
        · exact hbody x hx'

/-- C2: for a block opened by a fence marker of length `n` (the marker is
always the opening line's full backtick run), a line closes the block if
and only if it starts with at least `n` backticks; every line recorded in
a test block's code lines or inside a verbatim block's body starts with
fewer than `n` backticks, and the scan stops at the first line with at
least `n`.  In particular, in a block opened with four backticks the line
of exactly three backticks is recorded literally among the code lines. -/
theorem C2_fence_closing (n : Nat) :
    (∀ l : Line, (List.replicate n tickChar).isPrefixOf l = true ↔
        n ≤ leadingTicks l) ∧
    (∀ line bt lang cfg : Line,
        extract_code_block_start line = some (bt, lang, cfg) →
        bt = List.replicate (leadingTicks line) tickChar ∧
          2 ≤ leadingTicks line) ∧
    (∀ (cur : Line) (i : Nat) (lines : List Line) (acc : List (Nat × Line))
        (i' : Nat) (rest : List Line),
        scanCode (List.replicate n tickChar) cur i lines =
          some (acc, i', rest) →
        (∀ p ∈ acc, leadingTicks p.2 < n) ∧
        ∃ closer, cur :: lines = acc.map Prod.snd ++ closer :: rest ∧
          n ≤ leadingTicks closer) ∧
    (∀ (i : Nat) (lines : List Line) (acc : List Line) (i' : Nat)
        (rest : List Line),
        scanVerbatim (List.replicate n tickChar) i lines =
          some (acc, i', rest) →
        ∃ body closer, acc = body ++ [closer] ∧
          (∀ l ∈ body, leadingTicks l < n) ∧ n ≤ leadingTicks closer ∧
          lines = body ++ closer :: rest) ∧
    tokens DEFAULT_MARKDOWN_LANGUAGES
        ["````scrut".data, "$ echo hello".data, "```".data, "````".data] =
      [.testCodeBlock ("scrut".data) [] []
        [(1, "$ echo hello".data), (2, "```".data)]] := by
  have hlt : ∀ l : Line, (List.replicate n tickChar).isPrefixOf l = false →
      leadingTicks l < n := by
    intro l hf
    by_contra hge
    rw [(replicate_isPrefixOf_iff n l).mpr (by omega)] at hf
    exact Bool.true_eq_false ▸ hf
  refine ⟨replicate_isPrefixOf_iff n, extract_marker_replicate, ?_, ?_,
    by decide⟩
  · intro cur i lines acc i' rest h
    obtain ⟨h1, closer, h2, h3⟩ := scanCode_spec _ lines cur i acc i' rest h
    exact ⟨fun p hp => hlt p.2 (h1 p hp), closer, h2,
      (replicate_isPrefixOf_iff n closer).mp h3⟩
  · intro i lines acc i' rest h
    obtain ⟨body, closer, hacc, hbody, hcl, hlines⟩ :=
      scanVerbatim_spec _ lines i acc i' rest h
    exact ⟨body, closer, hacc, fun l hl => hlt l (hbody l hl),
      (replicate_isPrefixOf_iff n closer).mp hcl, hlines⟩

/-- C2, witness at the concrete four-backtick marker and the inner
three-backtick line. -/
theorem C2_witness :
    leadingTicks ("```".data) < 4 ∧ 4 ≤ leadingTicks ("```` extra".data) := by
  have h := C2_fence_closing 4
  constructor
  · have hc := (h.2.2.1 ("$ x".data) 2
      ["```".data, "````".data] [(1, "$ x".data), (2, "```".data)] 4 []
      (by decide)).1
    exact hc (2, "```".data) (by decide)
  · exact (h.1 ("```` extra".data)).mp (by decide)

/-- Unfolding equation of the iterator on the empty line source. -/
theorem next_nil (languages : List Line) (st : MarkdownIterator) :
    MarkdownIterator.next languages st [] = none := rfl

/-- Unfolding equation of the iterator on a non-empty line source. -/
theorem next_cons (languages : List Line) (st : MarkdownIterator)
    (line : Line) (rest : List Line) :
    MarkdownIterator.next languages st (line :: rest) =
      (if st.content_start = false ∧ line = "---".data then
        match scanFrontMatter (st.line_index + 1) rest with
        | none => none
        | some (cfg, i', rest') =>
          some (.documentConfig cfg, ⟨i', st.content_start⟩, rest')
      else
        match extract_code_block_start line with
        | some (backticks, language, config) =>
          if languages.contains language then
            match scanComments (st.line_index + 1) rest with
            | none => none
            | some (comment_lines, cur, i2, rest2) =>
              match scanCode backticks cur i2 rest2 with
              | none => none
              | some (code_lines, i3, rest3) =>
                some (.testCodeBlock language
                        (testConfigLines (st.line_index + 1 - 1) config)
                        comment_lines code_lines, ⟨i3, true⟩, rest3)
          else
            match scanVerbatim backticks (st.line_index + 1) rest with
            | none => none
            | some (ls, i', rest') =>
              some (.verbatimCodeBlock (st.line_index + 1 - 1) language
                      (line :: ls), ⟨i', true⟩, rest')
        | none =>
          some (.line (st.line_index + 1 - 1) line,
                ⟨st.line_index + 1, st.content_start || !(blankLine line)⟩,
                rest)) := rfl

/-- The content-start flag never resets once set. -/
theorem next_content_mono (langs : List Line) (st : MarkdownIterator)
    (lines : List Line) (t : MarkdownToken) (st' : MarkdownIterator)
    (rest : List Line)
    (h : MarkdownIterator.next langs st lines = some (t, st', rest))
    (hc : st.content_start = true) : st'.content_start = true := by
  cases lines with
  | nil => simp [MarkdownIterator.next] at h
  | cons l rest₀ =>
    rw [next_cons, if_neg (by simp [hc])] at h
    split at h
    · split at h
      · split at h
        · exact absurd h (by simp)
        · split at h
          · exact absurd h (by simp)
          · simp only [Option.some_inj, Prod.mk.injEq] at h
            obtain ⟨-, h2, -⟩ := h
            rw [← h2]
      · split at h
        · exact absurd h (by simp)
        · simp only [Option.some_inj, Prod.mk.injEq] at h
          obtain ⟨-, h2, -⟩ := h
          rw [← h2]
    · simp only [Option.some_inj, Prod.mk.injEq] at h
      obtain ⟨-, h2, -⟩ := h
      rw [← h2]
      simp [hc]

/-- After content has started, no front-matter token can be emitted. -/
theorem next_not_fm (langs : List Line) (st : MarkdownIterator)
    (lines : List Line) (t : MarkdownToken) (st' : MarkdownIterator)
    (rest : List Line)
    (h : MarkdownIterator.next langs st lines = some (t, st', rest))
    (hc : st.content_start = true) : isFrontMatterToken t = false := by
  cases lines with
  | nil => simp [MarkdownIterator.next] at h
  | cons l rest₀ =>
    rw [next_cons, if_neg (by simp [hc])] at h
    split at h
    · split at h
      · split at h
        · exact absurd h (by simp)
        · split at h
          · exact absurd h (by simp)
          · simp only [Option.some_inj, Prod.mk.injEq] at h
            obtain ⟨h1, -, -⟩ := h
            rw [← h1]
            rfl
      · split at h
        · exact absurd h (by simp)
        · simp only [Option.some_inj, Prod.mk.injEq] at h
          obtain ⟨h1, -, -⟩ := h
          rw [← h1]
          rfl
    · simp only [Option.some_inj, Prod.mk.injEq] at h
      obtain ⟨h1, -, -⟩ := h
      rw [← h1]
      rfl

/-- No front-matter token appears in the stream once content has
started. -/
theorem tokensAux_no_fm (langs : List Line) :
    ∀ (fuel : Nat) (st : MarkdownIterator) (lines : List Line),
      st.content_start = true →
      ∀ t ∈ tokensAux langs fuel st lines, isFrontMatterToken t = false := by
  intro fuel
  induction fuel with
  | zero =>
    intro st lines hc t ht
    simp [tokensAux] at ht
  | succ fuel ih =>
    intro st lines hc t ht
    unfold tokensAux at ht
    cases hn : MarkdownIterator.next langs st lines with
    | none => rw [hn] at ht; simp at ht
    | some tr =>
      obtain ⟨t0, st', rest⟩ := tr
      rw [hn] at ht
      simp only [List.mem_cons] at ht
      rcases ht with rfl | ht'
      · exact next_not_fm langs st lines t st' rest hn hc
      · exact ih st' rest (next_content_mono langs st lines t0 st' rest hn hc)
          t ht'

/-- A token emitted while the content-start flag remains unset afterwards
is a front-matter block or a blank plain line. -/
theorem next_content_false (langs : List Line) (st : MarkdownIterator)
    (lines : List Line) (t : MarkdownToken) (st' : MarkdownIterator)
    (rest : List Line)
    (h : MarkdownIterator.next langs st lines = some (t, st', rest))
    (h' : st'.content_start = false) :
    isFrontMatterToken t = true ∨ isBlankLineToken t = true := by
  cases lines with
  | nil => simp [MarkdownIterator.next] at h
  | cons l rest₀ =>
    rw [next_cons] at h
    split at h
    · split at h
      · exact absurd h (by simp)
      · simp only [Option.some_inj, Prod.mk.injEq] at h
        obtain ⟨h1, -, -⟩ := h
        rw [← h1]
        exact Or.inl rfl
    · split at h
      · split at h
        · split at h
          · exact absurd h (by simp)
          · split at h
            · exact absurd h (by simp)
            · simp only [Option.some_inj, Prod.mk.injEq] at h
              obtain ⟨-, h2, -⟩ := h
              rw [← h2] at h'
              exact absurd h' (by simp)
        · split at h
          · exact absurd h (by simp)
          · simp only [Option.some_inj, Prod.mk.injEq] at h
            obtain ⟨-, h2, -⟩ := h
            rw [← h2] at h'
            exact absurd h' (by simp)
      · simp only [Option.some_inj, Prod.mk.injEq] at h
        obtain ⟨h1, h2, -⟩ := h
        rw [← h2] at h'
        simp only [Bool.or_eq_false_iff, Bool.not_eq_false'] at h'
        rw [← h1]
        exact Or.inr h'.2

/-- Every token emitted before a front-matter token is itself a
front-matter token or a blank plain line. -/
theorem tokensAux_fm_before (langs : List Line) :
    ∀ (fuel : Nat) (st : MarkdownIterator) (lines : List Line)
      (pre : List MarkdownToken) (t : MarkdownToken)
      (post : List MarkdownToken),
      tokensAux langs fuel st lines = pre ++ t :: post →
      isFrontMatterToken t = true →
      ∀ u ∈ pre, isFrontMatterToken u = true ∨ isBlankLineToken u = true := by
  intro fuel
  induction fuel with
  | zero =>
    intro st lines pre t post h hfm u hu
    rw [tokensAux] at h
    exact absurd h.symm (by simp)
  | succ fuel ih =>
    intro st lines pre t post h hfm u hu
    unfold tokensAux at h
    cases hn : MarkdownIterator.next langs st lines with
    | none =>
      rw [hn] at h
      exact absurd h.symm (by simp)
    | some tr =>
      obtain ⟨t0, st', rest⟩ := tr
      rw [hn] at h
      cases pre with
      | nil => exact absurd hu (by simp)
      | cons p pre' =>
        simp only [List.cons_append, List.cons.injEq] at h
        obtain ⟨rfl, h2⟩ := h
        rcases List.mem_cons.mp hu with rfl | hu'
        · cases hcs : st'.content_start with
          | false => exact next_content_false langs st lines u st' rest hn hcs
          | true =>
            have ht : t ∈ tokensAux langs fuel st' rest := by
              rw [h2]
              exact List.mem_append_right _ (List.mem_cons_self t post)
            exact absurd (tokensAux_no_fm langs fuel st' rest hcs t ht)
              (by simp [hfm])
        · exact ih st' rest pre' t post h2 hfm u hu'

/-- C4, counterexample: a document with two consecutive front-matter
blocks produces two front-matter tokens — the second block's opening
"---" (line index 3) is not emitted as a plain line — because reading
front matter leaves the content-start flag unset. -/
theorem C4_counterexample :
    ((tokens DEFAULT_MARKDOWN_LANGUAGES
        ["---".data, "a".data, "---".data, "---".data, "b".data,
         "---".data]).countP (fun t => isFrontMatterToken t) = 2) ∧
    tokens DEFAULT_MARKDOWN_LANGUAGES
        ["---".data, "a".data, "---".data, "---".data, "b".data,
         "---".data] =
      [.documentConfig [(1, "a".data)], .documentConfig [(4, "b".data)]] := by
  decide

/-- C4, amended: a front-matter block is recognized only while no real
content (a fence or a non-blank plain line) has been seen — every token
before a front-matter token is a front-matter token or a blank plain
line — but front matter itself does not flip the content flag, so more
than one front-matter block can be recognized; once content has started,
a "---" line is emitted as a plain line. -/
theorem C4_front_matter_amended (langs : List Line) :
    (∀ (fuel : Nat) (st : MarkdownIterator) (lines : List Line)
        (pre : List MarkdownToken) (t : MarkdownToken)
        (post : List MarkdownToken),
        tokensAux langs fuel st lines = pre ++ t :: post →
        isFrontMatterToken t = true →
        ∀ u ∈ pre, isFrontMatterToken u = true ∨ isBlankLineToken u = true) ∧
    (∀ (st : MarkdownIterator) (rest : List Line), st.content_start = true →
        MarkdownIterator.next langs st ("---".data :: rest) =
          some (.line st.line_index ("---".data),
                ⟨st.line_index + 1, true⟩, rest)) := by
  refine ⟨tokensAux_fm_before langs, ?_⟩
  intro st rest hc
  rw [next_cons, if_neg (by simp [hc])]
  rw [show extract_code_block_start ("---".data) = none from by decide]
  simp [hc, show blankLine ("---".data) = false from by decide]

/-- C4, witness: after real content, a "---" line is a plain-line
token. -/
theorem C4_witness :
    MarkdownIterator.next DEFAULT_MARKDOWN_LANGUAGES ⟨5, true⟩
      ("---".data :: ["x".data]) =
      some (.line 5 ("---".data), ⟨6, true⟩, ["x".data]) :=
  (C4_front_matter_amended DEFAULT_MARKDOWN_LANGUAGES).2 ⟨5, true⟩
    ["x".data] rfl

/-- Front-matter scanning with no closing delimiter exhausts the input
and yields nothing. -/
theorem scanFrontMatter_eq_none (i : Nat) (lines : List Line)
    (h : ("---".data) ∉ lines) : scanFrontMatter i lines = none := by
  induction lines generalizing i with
  | nil => rfl
  | cons l rest ih =>
    unfold scanFrontMatter
    rw [if_neg (by intro e; exact h (e ▸ List.mem_cons_self l rest))]
    rw [ih (fun hm => h (List.mem_cons_of_mem l hm)) (i := i + 1)]

/-- Verbatim scanning with no closing line exhausts the input and yields
nothing. -/
theorem scanVerbatim_eq_none (bt : Line) (i : Nat) (lines : List Line)
    (h : ∀ l ∈ lines, bt.isPrefixOf l = false) :
    scanVerbatim bt i lines = none := by
  induction lines generalizing i with
  | nil => rfl
  | cons l rest ih =>
    unfold scanVerbatim
    rw [if_neg (by simp [h l (List.mem_cons_self l rest)])]
    rw [ih (fun x hx => h x (List.mem_cons_of_mem l hx)) (i := i + 1)]

/-- Code scanning with no closing line exhausts the input and yields
nothing. -/
theorem scanCode_eq_none (lines : List Line) :
    ∀ (bt cur : Line) (i : Nat),
      (∀ l ∈ cur :: lines, bt.isPrefixOf l = false) →
      scanCode bt cur i lines = none := by
  induction lines with
  | nil =>
    intro bt cur i h
    rw [scanCode_nil, if_neg (by simp [h cur (List.mem_cons_self cur [])])]
  | cons l rest ih =>
    intro bt cur i h
    rw [scanCode_cons, if_neg (by simp [h cur (List.mem_cons_self cur _)])]
    rw [ih bt l (i + 1) (fun x hx => h x (List.mem_cons_of_mem cur hx))]

/-- The comment scan returns a current line and a remainder drawn from its
input. -/
theorem scanComments_mem (lines : List Line) :
    ∀ (i : Nat) (acc : List (Nat × Line)) (cur : Line) (i' : Nat)
      (rest : List Line),
      scanComments i lines = some (acc, cur, i', rest) →
      cur ∈ lines ∧ ∀ l ∈ rest, l ∈ lines := by
  induction lines with
  | nil => intro i acc cur i' rest h; simp [scanComments] at h
  | cons l rest₀ ih =>
    intro i acc cur i' rest h
    unfold scanComments at h
    split at h
    · split at h
      · exact absurd h (by simp)
      · rename_i acc₁ cur₁ i₁ rest₁ hrec
        simp only [Option.some_inj, Prod.mk.injEq] at h
        obtain ⟨-, rfl, -, rfl⟩ := h
        obtain ⟨h1, h2⟩ := ih (i + 1) acc₁ cur₁ i₁ rest₁ hrec
        exact ⟨List.mem_cons_of_mem l h1,
          fun x hx => List.mem_cons_of_mem l (h2 x hx)⟩
    · simp only [Option.some_inj, Prod.mk.injEq] at h
      obtain ⟨-, rfl, -, rfl⟩ := h
      exact ⟨List.mem_cons_self l rest₀, fun x hx => List.mem_cons_of_mem l hx⟩

/-- C7: an unterminated front-matter block (no further "---") and an
unterminated fenced block (no further line starting with the opening
marker) each make the iterator end with no token — `next` returns `none`
and the token stream from that point is empty, not an error — and a
document whose final fenced block is truncated still parses successfully
to the test cases of the tokens formed before the truncation point. -/
theorem C7_truncation_permissive (langs : List Line) :
    (∀ (st : MarkdownIterator) (rest : List Line),
        st.content_start = false → ("---".data) ∉ rest →
        MarkdownIterator.next langs st ("---".data :: rest) = none) ∧
    (∀ (st : MarkdownIterator) (line : Line) (rest : List Line)
        (bt lang cfg : Line),
        extract_code_block_start line = some (bt, lang, cfg) →
        (∀ l ∈ rest, bt.isPrefixOf l = false) →
        MarkdownIterator.next langs st (line :: rest) = none) ∧
    (∀ (fuel : Nat) (st : MarkdownIterator) (lines : List Line),
        MarkdownIterator.next langs st lines = none →
        tokensAux langs fuel st lines = []) ∧
    parseSummary docC7 = some [("Complete test".data, "echo ok".data, 4)] := by
  refine ⟨?_, ?_, ?_, by decide⟩
  · intro st rest hc hnm
    rw [next_cons, if_pos ⟨hc, rfl⟩, scanFrontMatter_eq_none _ _ hnm]
  · intro st line rest bt lang cfg hex hnp
    have hline : ¬(st.content_start = false ∧ line = "---".data) := by
      rintro ⟨-, rfl⟩
      rw [show extract_code_block_start ("---".data) = none from by decide]
        at hex
      exact absurd hex (by simp)
    rw [next_cons, if_neg hline]
    simp only [hex]
    by_cases hcon : langs.contains lang
    · rw [if_pos hcon]
      cases hsc : scanComments (st.line_index + 1) rest with
      | none => rfl
      | some tr =>
        obtain ⟨comments, cur, i2, rest2⟩ := tr
        obtain ⟨hcur, hrest2⟩ :=
          scanComments_mem rest (st.line_index + 1) comments cur i2 rest2 hsc
        have hnone : scanCode bt cur i2 rest2 = none := by
          apply scanCode_eq_none
          intro x hx
          rcases List.mem_cons.mp hx with rfl | hx'
          · exact hnp x hcur
          · exact hnp x (hrest2 x hx')
        simp [hnone]
    · rw [if_neg hcon, scanVerbatim_eq_none bt (st.line_index + 1) rest hnp]
  · intro fuel st lines hn
    cases fuel with
    | zero => rfl
    | succ fuel => simp [tokensAux, hn]

/-- C7, witness: the unterminated cases at concrete inputs. -/
theorem C7_witness :
    MarkdownIterator.next DEFAULT_MARKDOWN_LANGUAGES ⟨0, false⟩
        ["---".data, "x: y".data] = none ∧
    MarkdownIterator.next DEFAULT_MARKDOWN_LANGUAGES ⟨0, false⟩
        ["````scrut".data, "$ truncated".data] = none := by
  have h := C7_truncation_permissive DEFAULT_MARKDOWN_LANGUAGES
  exact ⟨h.1 ⟨0, false⟩ ["x: y".data] rfl (by decide),
    h.2.1 ⟨0, false⟩ ("````scrut".data) ["$ truncated".data] ("````".data)
      ("scrut".data) [] (by decide) (by decide)⟩

/-- Consumption accounting for the front-matter scan: some result means
some positive number of lines was consumed and the index advanced by
exactly that number. -/
theorem scanFrontMatter_consumed (lines : List Line) :
    ∀ (i : Nat) (cfg : List (Nat × Line)) (i' : Nat) (rest : List Line),
      scanFrontMatter i lines = some (cfg, i', rest) →
      ∃ k, 1 ≤ k ∧ k ≤ lines.length ∧ rest = lines.drop k ∧ i' = i + k := by
  induction lines with
  | nil => intro i cfg i' rest h; simp [scanFrontMatter] at h
  | cons l rest₀ ih =>
    intro i cfg i' rest h
    unfold scanFrontMatter at h
    split at h
    · simp only [Option.some_inj, Prod.mk.injEq] at h
      obtain ⟨-, rfl, rfl⟩ := h
      exact ⟨1, by omega, by simp, rfl, rfl⟩
    · split at h
      · exact absurd h (by simp)
      · rename_i acc₁ i₁ rest₁ hrec
        simp only [Option.some_inj, Prod.mk.injEq] at h
        obtain ⟨-, rfl, rfl⟩ := h
        obtain ⟨k, hk1, hk2, hk3, hk4⟩ := ih (i + 1) acc₁ i₁ rest₁ hrec
        refine ⟨k + 1, by omega, by simp; omega, by simp [hk3], by omega⟩

/-- Consumption accounting for the verbatim scan. -/
theorem scanVerbatim_consumed (lines : List Line) :
    ∀ (bt : Line) (i : Nat) (acc : List Line) (i' : Nat) (rest : List Line),
      scanVerbatim bt i lines = some (acc, i', rest) →
      ∃ k, 1 ≤ k ∧ k ≤ lines.length ∧ rest = lines.drop k ∧ i' = i + k := by
  induction lines with
  | nil => intro bt i acc i' rest h; simp [scanVerbatim] at h
  | cons l rest₀ ih =>
    intro bt i acc i' rest h
    unfold scanVerbatim at h
    split at h
    · simp only [Option.some_inj, Prod.mk.injEq] at h
      obtain ⟨-, rfl, rfl⟩ := h
      exact ⟨1, by omega, by simp, rfl, rfl⟩
    · split at h
      · exact absurd h (by simp)
      · rename_i acc₁ i₁ rest₁ hrec
        simp only [Option.some_inj, Prod.mk.injEq] at h
        obtain ⟨-, rfl, rfl⟩ := h
        obtain ⟨k, hk1, hk2, hk3, hk4⟩ := ih bt (i + 1) acc₁ i₁ rest₁ hrec
        refine ⟨k + 1, by omega, by simp; omega, by simp [hk3], by omega⟩

/-- Consumption accounting for the comment scan (the returned current
line counts as consumed). -/
theorem scanComments_consumed (lines : List Line) :
    ∀ (i : Nat) (acc : List (Nat × Line)) (cur : Line) (i' : Nat)
      (rest : List Line),
      scanComments i lines = some (acc, cur, i', rest) →
      ∃ k, 1 ≤ k ∧ k ≤ lines.length ∧ rest = lines.drop k ∧ i' = i + k := by
  induction lines with
  | nil => intro i acc cur i' rest h; simp [scanComments] at h
  | cons l rest₀ ih =>
    intro i acc cur i' rest h
    unfold scanComments at h
    split at h
    · split at h
      · exact absurd h (by simp)
      · rename_i acc₁ cur₁ i₁ rest₁ hrec
        simp only [Option.some_inj, Prod.mk.injEq] at h
        obtain ⟨-, -, rfl, rfl⟩ := h
        obtain ⟨k, hk1, hk2, hk3, hk4⟩ := ih (i + 1) acc₁ cur₁ i₁ rest₁ hrec
        refine ⟨k + 1, by omega, by simp; omega, by simp [hk3], by omega⟩
    · simp only [Option.some_inj, Prod.mk.injEq] at h
      obtain ⟨-, -, rfl, rfl⟩ := h
      exact ⟨1, by omega, by simp, rfl, rfl⟩

/-- Consumption accounting for the code scan (the current line was
already consumed by the caller, so zero further lines is possible). -/
theorem scanCode_consumed (lines : List Line) :
    ∀ (bt cur : Line) (i : Nat) (acc : List (Nat × Line)) (i' : Nat)
      (rest : List Line),
      scanCode bt cur i lines = some (acc, i', rest) →
      ∃ k, k ≤ lines.length ∧ rest = lines.drop k ∧ i' = i + k := by
  induction lines with
  | nil =>
    intro bt cur i acc i' rest h
    rw [scanCode_nil] at h
    split at h
    · simp only [Option.some_inj, Prod.mk.injEq] at h
      obtain ⟨-, rfl, rfl⟩ := h
      exact ⟨0, by simp, rfl, rfl⟩
    · exact absurd h (by simp)
  | cons l rest₀ ih =>
    intro bt cur i acc i' rest h
    rw [scanCode_cons] at h
    split at h
    · simp only [Option.some_inj, Prod.mk.injEq] at h
      obtain ⟨-, rfl, rfl⟩ := h
      exact ⟨0, by simp, rfl, rfl⟩
    · split at h
      · exact absurd h (by simp)
      · rename_i acc₁ i₁ rest₁ hrec
        simp only [Option.some_inj, Prod.mk.injEq] at h
        obtain ⟨-, rfl, rfl⟩ := h
        obtain ⟨k, hk1, hk2, hk3⟩ := ih bt l (i + 1) acc₁ i₁ rest₁ hrec
        refine ⟨k + 1, by simp; omega, by simp [hk2], by omega⟩

/-- Consumption accounting for one iterator step: at least one line is
consumed and the line index advances by the consumed count. -/
theorem next_consumed (langs : List Line) (st : MarkdownIterator)
    (lines : List Line) (t : MarkdownToken) (st' : MarkdownIterator)
    (rest : List Line)
    (h : MarkdownIterator.next langs st lines = some (t, st', rest)) :
    ∃ k, 1 ≤ k ∧ k ≤ lines.length ∧ rest = lines.drop k ∧
      st'.line_index = st.line_index + k := by
  cases lines with
  | nil => simp [MarkdownIterator.next] at h
  | cons l rest₀ =>
    rw [next_cons] at h
    split at h
    · split at h
      · exact absurd h (by simp)
      · rename_i cfg i₁ rest₁ hrec
        simp only [Option.some_inj, Prod.mk.injEq] at h
        obtain ⟨-, h2, rfl⟩ := h
        obtain ⟨k, hk1, hk2, hk3, hk4⟩ :=
          scanFrontMatter_consumed rest₀ (st.line_index + 1) cfg i₁ rest₁ hrec
        refine ⟨k + 1, by omega, by simp; omega, by simp [hk3], ?_⟩
        rw [← h2]
        simp
        omega
    · split at h
      · split at h
        · split at h
          · exact absurd h (by simp)
          · rename_i comments cur i2 rest2 hcom
            split at h
            · exact absurd h (by simp)
            · rename_i codes i3 rest3 hcode
              simp only [Option.some_inj, Prod.mk.injEq] at h
              obtain ⟨-, h2, rfl⟩ := h
              obtain ⟨k1, hk1a, hk1b, hk1c, hk1d⟩ :=
                scanComments_consumed rest₀ (st.line_index + 1) comments cur
                  i2 rest2 hcom
              obtain ⟨k2, hk2a, hk2b, hk2c⟩ :=
                scanCode_consumed rest2 _ cur i2 codes i3 rest3 hcode
              have hlen2 : rest2.length = rest₀.length - k1 := by
                rw [hk1c, List.length_drop]
              refine ⟨k1 + k2 + 1, by omega, by simp; omega, ?_, ?_⟩
              · rw [hk2b, hk1c, List.drop_drop, List.drop_succ_cons]
              · rw [← h2]
                simp
                omega
        · split at h
          · exact absurd h (by simp)
          · rename_i ls i₁ rest₁ hrec
            simp only [Option.some_inj, Prod.mk.injEq] at h
            obtain ⟨-, h2, rfl⟩ := h
            obtain ⟨k, hk1, hk2, hk3, hk4⟩ :=
              scanVerbatim_consumed rest₀ _ (st.line_index + 1) ls i₁ rest₁
                hrec
            refine ⟨k + 1, by omega, by simp; omega, by simp [hk3], ?_⟩
            rw [← h2]
            simp
            omega
      · simp only [Option.some_inj, Prod.mk.injEq] at h
        obtain ⟨-, h2, rfl⟩ := h
        refine ⟨1, by omega, by simp, rfl, ?_⟩
        rw [← h2]

/-- Shape of an emitted verbatim token: its starting line number is the
iterator's pre-step line count (the 0-based index of the opening fence),
the head line of the remaining input is that fence, and the language was
not in the recognized set. -/
theorem next_verbatim_shape (langs : List Line) (st : MarkdownIterator)
    (lines : List Line) (s : Nat) (lang : Line) (bls : List Line)
    (st' : MarkdownIterator) (rest : List Line)
    (h : MarkdownIterator.next langs st lines =
      some (.verbatimCodeBlock s lang bls, st', rest)) :
    s = st.line_index ∧
    ∃ line rest₀ bt cfg, lines = line :: rest₀ ∧
      extract_code_block_start line = some (bt, lang, cfg) ∧
      langs.contains lang = false := by
  cases lines with
  | nil => simp [MarkdownIterator.next] at h
  | cons l rest₀ =>
    rw [next_cons] at h
    split at h
    · split at h
      · exact absurd h (by simp)
      · simp only [Option.some_inj, Prod.mk.injEq] at h
        exact absurd h.1 (by simp)
    · split at h
      · rename_i bt language cfg hex
        split at h
        · split at h
          · exact absurd h (by simp)
          · split at h
            · exact absurd h (by simp)
            · simp only [Option.some_inj, Prod.mk.injEq] at h
              exact absurd h.1 (by simp)
        · rename_i hcon
          split at h
          · exact absurd h (by simp)
          · simp only [Option.some_inj, Prod.mk.injEq,
              MarkdownToken.verbatimCodeBlock.injEq] at h
            obtain ⟨⟨h1, rfl, -⟩, -, -⟩ := h
            refine ⟨by omega, l, rest₀, bt, cfg, rfl, hex, ?_⟩
            exact Bool.not_eq_true _ ▸ hcon
      · simp only [Option.some_inj, Prod.mk.injEq] at h
        exact absurd h.1 (by simp)

/-- Indexing an appended list at the boundary position yields the head of
the second part. -/
theorem getD_append_len (pre : List Line) (l : Line) (r : List Line) :
    (pre ++ l :: r).getD pre.length [] = l := by
  induction pre with
  | nil => rfl
  | cons p ps ih => simpa using ih

/-- Every verbatim token in the stream carries the 0-based document index
of its opening fence line, whose classification yields exactly the
token's language, which is outside the recognized set. -/
theorem tokensAux_verbatim_pos (langs : List Line) :
    ∀ (fuel : Nat) (c : Bool) (pre lines : List Line) (s : Nat)
      (lang : Line) (bls : List Line),
      (MarkdownToken.verbatimCodeBlock s lang bls) ∈
        tokensAux langs fuel ⟨pre.length, c⟩ lines →
      pre.length ≤ s ∧ s < pre.length + lines.length ∧
      ∃ bt cfg, extract_code_block_start ((pre ++ lines).getD s []) =
          some (bt, lang, cfg) ∧ langs.contains lang = false := by
  intro fuel
  induction fuel with
  | zero => intro c pre lines s lang bls hm; simp [tokensAux] at hm
  | succ fuel ih =>
    intro c pre lines s lang bls hm
    unfold tokensAux at hm
    cases hn : MarkdownIterator.next langs ⟨pre.length, c⟩ lines with
    | none => rw [hn] at hm; simp at hm
    | some tr =>
      obtain ⟨t0, st', rest⟩ := tr
      rw [hn] at hm
      simp only [List.mem_cons] at hm
      obtain ⟨k, hk1, hk2, hk3, hk4⟩ :=
        next_consumed langs ⟨pre.length, c⟩ lines t0 st' rest hn
      rcases hm with rfl | hm'
      · obtain ⟨hs, line, rest₀, bt, cfg, hlines, hex, hcon⟩ :=
          next_verbatim_shape langs ⟨pre.length, c⟩ lines s lang bls st' rest
            hn
        subst hlines
        simp only at hs
        refine ⟨by omega, by simp; omega, bt, cfg, ?_, hcon⟩
        rw [hs, getD_append_len pre line rest₀]
        exact hex
      · have hst' : st' = ⟨(pre ++ lines.take k).length, st'.content_start⟩ := by
          cases st'
          simp only at hk4 ⊢
          rw [hk4]
          simp [List.length_take]
          omega
        rw [hst'] at hm'
        have hres := ih st'.content_start (pre ++ lines.take k) rest s lang
          bls hm'
        have hlenp : (pre ++ lines.take k).length = pre.length + k := by
          simp [List.length_take]
          omega
        have hl : (pre ++ lines.take k) ++ rest = pre ++ lines := by
          rw [hk3, List.append_assoc, List.take_append_drop]
        rw [hl] at hres
        obtain ⟨ha, hb, hc⟩ := hres
        rw [hlenp] at ha hb
        have hlenr : rest.length = lines.length - k := by
          rw [hk3, List.length_drop]
        refine ⟨by omega, by omega, hc⟩

/-- The body accumulator's only failure is the body-structure error. -/
theorem add_testcase_body_error {TCC : Type} (lp : LPState TCC) (l : Line)
    (idx : Nat) (e : MarkdownParserError)
    (h : lp.add_testcase_body l idx = .error e) : e = .bodyStructure := by
  unfold LPState.add_testcase_body at h
  split at h
  · split at h
    · exact absurd h (by simp)
    · simp only [Except.error.injEq] at h
      exact h.symm
  · split at h <;> exact absurd h (by simp)
  · exact absurd h (by simp)

/-- The body-feeding loop's only failure is the body-structure error. -/
theorem addBodyAll_error {TCC : Type} (code_lines : List (Nat × Line)) :
    ∀ (lp : LPState TCC) (e : MarkdownParserError),
      addBodyAll lp code_lines = .error e → e = .bodyStructure := by
  induction code_lines with
  | nil => intro lp e h; simp [addBodyAll] at h
  | cons p ps ih =>
    intro lp e h
    unfold addBodyAll at h
    split at h
    · rename_i e' hb
      simp only [Except.error.injEq] at h
      exact h ▸ add_testcase_body_error lp p.2 p.1 e' hb
    · exact ih _ e h

/-- Test-case finalization's only failure is the missing-command error. -/
theorem end_testcase_error {TCC : Type} (lp : LPState TCC) (li : Nat)
    (e : MarkdownParserError) (h : lp.end_testcase li = .error e) :
    e = .noCommand := by
  unfold LPState.end_testcase at h
  split at h
  · simp only [Except.error.injEq] at h
    exact h.symm
  · exact absurd h (by simp)

/-- Unfolding equation of `parseStep` on a front-matter token. -/
theorem parseStep_documentConfig {TCC : Type} (ext : Externals TCC)
    (base : TCC) (st : ParseState TCC) (cl : List (Nat × Line)) :
    parseStep ext base st (.documentConfig cl) =
      (match ext.apply_front_matter st.config (join_newline cl) with
       | none => .error .configParseError
       | some c => .ok { st with config := c }) := rfl

/-- Unfolding equation of `parseStep` on a plain-line token. -/
theorem parseStep_line {TCC : Type} (ext : Externals TCC) (base : TCC)
    (st : ParseState TCC) (idx : Nat) (text : Line) :
    parseStep ext base st (.line idx text) =
      (match extract_title text with
       | some (_, title, level) =>
         .ok { st with
           heading_stack :=
             if level > 0 then st.heading_stack.set_heading level title
             else st.heading_stack.add_paragraph title,
           has_title_since_break := true,
           lp := st.lp.set_testcase_title
             ((if level > 0 then st.heading_stack.set_heading level title
               else st.heading_stack.add_paragraph title).build_title
               st.config.composite_test_names
               st.config.composite_test_name_separator) }
       | none =>
         if st.has_title_since_break then
           .ok { st with heading_stack := st.heading_stack.clear_paragraph,
                         has_title_since_break := false }
         else .ok st) := rfl

/-- Unfolding equation of `parseStep` on a verbatim token. -/
theorem parseStep_verbatim {TCC : Type} (ext : Externals TCC) (base : TCC)
    (st : ParseState TCC) (start : Nat) (lang : Line) (ls : List Line) :
    parseStep ext base st (.verbatimCodeBlock start lang ls) =
      (if lang.isEmpty then .error (.missingLanguageSpecifier start)
       else .ok st) := rfl

/-- Unfolding equation of `parseStep` on a test-block token. -/
theorem parseStep_testBlock {TCC : Type} (ext : Externals TCC) (base : TCC)
    (st : ParseState TCC) (lang : Line) (cl comments codes : List (Nat × Line)) :
    parseStep ext base st (.testCodeBlock lang cl comments codes) =
      (match
        (if cl.isEmpty then some ext.empty_testcase_config
         else ext.parse_testcase_config
                (lbraceChar :: join_newline cl ++ [rbraceChar])) with
      | none => .error .testConfigParseError
      | some parsed_config =>
        match
          addBodyAll
            (st.lp.set_testcase_config
              (ext.with_defaults_from
                (ext.with_defaults_from parsed_config st.config.defaults)
                base)) codes with
        | .error e => .error e
        | .ok lp2 =>
          match codes.getLast? with
          | none => .error .panicIndexOutOfBounds
          | some last =>
            match lp2.end_testcase last.1 with
            | .error e => .error e
            | .ok lp3 =>
              .ok { st with lp := lp3,
                            heading_stack := st.heading_stack.clear_after_test,
                            has_title_since_break := false }) := rfl

/-- A missing-language-specifier error arises only from a verbatim block
whose language is empty, and it carries that block's starting line. -/
theorem parseStep_mls {TCC : Type} (ext : Externals TCC) (base : TCC)
    (st : ParseState TCC) (t : MarkdownToken) (s : Nat)
    (h : parseStep ext base st t = .error (.missingLanguageSpecifier s)) :
    ∃ bls, t = .verbatimCodeBlock s [] bls := by
  cases t with
  | documentConfig cl =>
    rw [parseStep_documentConfig] at h
    split at h
    · exact absurd h (by simp)
    · exact absurd h (by simp)
  | line idx text =>
    rw [parseStep_line] at h
    split at h
    · exact absurd h (by simp)
    · split at h <;> exact absurd h (by simp)
  | verbatimCodeBlock start lang ls =>
    rw [parseStep_verbatim] at h
    split at h
    · rename_i hempty
      simp only [Except.error.injEq,
        MarkdownParserError.missingLanguageSpecifier.injEq] at h
      exact ⟨ls, by rw [h, List.isEmpty_iff.mp hempty]⟩
    · exact absurd h (by simp)
  | testCodeBlock lang cl comments codes =>
    rw [parseStep_testBlock] at h
    split at h
    · exact absurd h (by simp)
    · split at h
      · rename_i e hb
        have he := addBodyAll_error codes _ e hb
        simp only [Except.error.injEq] at h
        rw [he] at h
        exact absurd h (by simp)
      · split at h
        · exact absurd h (by simp)
        · split at h
          · rename_i e' hend
            have he := end_testcase_error _ _ e' hend
            simp only [Except.error.injEq] at h
            rw [he] at h
            exact absurd h (by simp)
          · exact absurd h (by simp)

/-- A missing-language-specifier error of the token loop comes from an
empty-language verbatim token in the stream with that starting line. -/
theorem parseTokens_mls {TCC : Type} (ext : Externals TCC) (base : TCC)
    (ts : List MarkdownToken) :
    ∀ (st : ParseState TCC) (s : Nat),
      parseTokens ext base st ts = .error (.missingLanguageSpecifier s) →
      ∃ bls, (MarkdownToken.verbatimCodeBlock s ([] : Line) bls) ∈ ts := by
  induction ts with
  | nil => intro st s h; simp [parseTokens] at h
  | cons t ts ih =>
    intro st s h
    unfold parseTokens at h
    split at h
    · rename_i e he
      simp only [Except.error.injEq] at h
      rw [h] at he
      obtain ⟨bls, rfl⟩ := parseStep_mls ext base st t s he
      exact ⟨bls, List.mem_cons_self _ _⟩
    · rename_i st' hok
      obtain ⟨bls, hm⟩ := ih st' s h
      exact ⟨bls, List.mem_cons_of_mem t hm⟩

/-- Unfolding equation of the token loop on a non-empty stream. -/
theorem parseTokens_cons {TCC : Type} (ext : Externals TCC) (base : TCC)
    (st : ParseState TCC) (t : MarkdownToken) (ts : List MarkdownToken) :
    parseTokens ext base st (t :: ts) =
      (match parseStep ext base st t with
       | .error e => .error e
       | .ok st' => parseTokens ext base st' ts) := rfl

/-- The token loop over an appended stream runs the first part first and
continues with the second only on success. -/
theorem parseTokens_append {TCC : Type} (ext : Externals TCC) (base : TCC)
    (ts₁ ts₂ : List MarkdownToken) :
    ∀ st : ParseState TCC,
      parseTokens ext base st (ts₁ ++ ts₂) =
        match parseTokens ext base st ts₁ with
        | .error e => .error e
        | .ok st' => parseTokens ext base st' ts₂ := by
  induction ts₁ with
  | nil => intro st; rfl
  | cons t ts ih =>
    intro st
    rw [List.cons_append, parseTokens_cons, parseTokens_cons]
    cases hp : parseStep ext base st t with
    | error e => rfl
    | ok st' => exact ih st'

/-- The parse call fails with an error exactly when the token loop from
the initial state does. -/
theorem parse_error_iff {TCC : Type} (ext : Externals TCC) (base : TCC)
    (langs doc : List Line) (e : MarkdownParserError) :
    parse ext base langs doc = .error e ↔
      parseTokens ext base (initState ext) (tokens langs doc) = .error e := by
  unfold parse
  cases parseTokens ext base (initState ext) (tokens langs doc) <;> simp

/-- C3, counterexample: for the document whose first line (0-based index
0, 1-based number 1) opens an untagged fenced block, the error carries 0 —
the 0-based index of the opening fence — not the 1-based line number 1. -/
theorem C3_counterexample :
    parse trivialExternals () DEFAULT_MARKDOWN_LANGUAGES
        ["```".data, "x".data, "```".data] =
      .error (.missingLanguageSpecifier 0) ∧
    ¬ parse trivialExternals () DEFAULT_MARKDOWN_LANGUAGES
        ["```".data, "x".data, "```".data] =
      .error (.missingLanguageSpecifier 1) := by
  constructor
  · rfl
  · intro h
    rw [show parse trivialExternals () DEFAULT_MARKDOWN_LANGUAGES
          ["```".data, "x".data, "```".data] =
        .error (.missingLanguageSpecifier 0) from rfl] at h
    simp at h

/-- C3, amended: whenever parse fails with a missing-language-specifier
error carrying `s`, the document's line at 0-based index `s` (not 1-based)
is a fence opening with empty language outside the recognized set; the
parse step on any empty-language verbatim token fails with exactly that
error and the token's starting line; and whenever the token stream splits
as a successfully processed prefix followed by an empty-language verbatim
token, parse returns that error and nothing else (no partial result). -/
theorem C3_missing_language_amended :
    (∀ (TCC : Type) (ext : Externals TCC) (base : TCC)
        (langs doc : List Line) (s : Nat),
        parse ext base langs doc = .error (.missingLanguageSpecifier s) →
        s < doc.length ∧
        ∃ bt cfg, extract_code_block_start (doc.getD s []) =
            some (bt, ([] : Line), cfg) ∧
          langs.contains ([] : Line) = false) ∧
    (∀ (TCC : Type) (ext : Externals TCC) (base : TCC) (st : ParseState TCC)
        (s : Nat) (bls : List Line),
        parseStep ext base st (.verbatimCodeBlock s [] bls) =
          .error (.missingLanguageSpecifier s)) ∧
    (∀ (TCC : Type) (ext : Externals TCC) (base : TCC)
        (langs doc : List Line) (ts₁ ts₂ : List MarkdownToken) (s : Nat)
        (bls : List Line) (st : ParseState TCC),
        tokens langs doc = ts₁ ++ .verbatimCodeBlock s [] bls :: ts₂ →
        parseTokens ext base (initState ext) ts₁ = .ok st →
        parse ext base langs doc = .error (.missingLanguageSpecifier s)) := by
  refine ⟨?_, ?_, ?_⟩
  · intro TCC ext base langs doc s h
    rw [parse_error_iff] at h
    obtain ⟨bls, hm⟩ :=
      parseTokens_mls ext base (tokens langs doc) (initState ext) s h
    have hpos := tokensAux_verbatim_pos langs (doc.length + 1) false [] doc s
      ([] : Line) bls hm
    simpa using hpos
  · intro TCC ext base st s bls
    rfl
  · intro TCC ext base langs doc ts₁ ts₂ s bls st hts hok
    rw [parse_error_iff, hts,
      parseTokens_append ext base ts₁ (.verbatimCodeBlock s [] bls :: ts₂)
        (initState ext), hok]
    rfl

/-- C3, witness: a document whose second line opens an untagged block
after a plain line; parse fails with the error carrying index 1. -/
theorem C3_witness :
    parse trivialExternals () DEFAULT_MARKDOWN_LANGUAGES
        ["Intro text".data, "```".data, "x".data, "```".data] =
      .error (.missingLanguageSpecifier 1) := by
  have h := C3_missing_language_amended
  exact h.2.2 Unit trivialExternals () DEFAULT_MARKDOWN_LANGUAGES
    ["Intro text".data, "```".data, "x".data, "```".data]
    [.line 0 ("Intro text".data)]
    [] 1 ["```".data, "x".data, "```".data] _ (by decide) rfl

/-- C8, witness for the amended theorem at the trivial externals. -/
theorem C8_witness :
    ∃ c tc, parse trivialExternals () DEFAULT_MARKDOWN_LANGUAGES docC8 =
        .ok (c, [tc]) ∧
      tc.title = "This is a title".data ∧
      tc.shell_expression = "echo hello".data ∧
      tc.expectations = ["hello".data] ∧
      tc.line_number = 4 :=
  C8_simple_document_amended trivialExternals ()
